import Mathlib

set_option maxHeartbeats 1000000

/-!
Verification development for three peripheral components of the repository:
the exponential-shift trainer extension (exercised by
`tests/chainer_tests/training_tests/extensions_tests/test_exponential_shift.py`),
the wheel-metadata generator (`cupyx/tools/_generate_wheel_metadata.py`), and
the k-means example (`examples/kmeans/kmeans.py`).

The extension class itself lives outside the provided source tree (only its test
file is present), so its definitions below are modelled from the specification
text, constrained by the expectations encoded in the test file.  Machine floats
are modelled as exact rationals, fallible code returns `Except`.
-/

/-- Python exception values observed in the modelled fragments. -/
inductive PyError where
  | valueError : String → PyError
  | runtimeError : String → PyError
  | keyError : String → PyError
  | argumentError : String → PyError
deriving DecidableEq

/-- Modelled from the spec: clamping of the geometrically shifted value toward the
optional target bound.  Growing sequences (rate > 1) stop at the target once the
ratio target/value has fallen to 1, decaying sequences once it has risen to 1;
expressing the crossing test through the ratio makes the same rule cover negative
values, as in the spec's examples with negative initial values and targets. -/
def clampToward (rate v : ℚ) : Option ℚ → ℚ
  | none => v
  | some tgt =>
    if 1 < rate then (if tgt / v ≤ 1 then tgt else v)
    else (if 1 ≤ tgt / v then tgt else v)

/-- Modelled from the spec: the Boolean crossing test deciding when the shifted
value is clamped to the target. -/
def crossed (rate v tgt : ℚ) : Bool :=
  if 1 < rate then decide (tgt / v ≤ 1) else decide (1 ≤ tgt / v)

/-- Modelled from the spec: one geometric update step of the shifted value
(multiply by the rate, then clamp toward the optional target). -/
def shiftStep (rate : ℚ) (target : Option ℚ) (v : ℚ) : ℚ :=
  clampToward rate (v * rate) target

/-- Modelled from the spec: the value trajectory after k trigger events, starting
from the value v0 installed at the first (before-training) invocation. -/
def shiftSeq (rate : ℚ) (target : Option ℚ) (v0 : ℚ) : ℕ → ℚ
  | 0 => v0
  | k + 1 => shiftStep rate target (shiftSeq rate target v0 k)

/-- Modelled from the spec: the state of the exponential-shift trainer extension.
`attr` is the name of the optimizer attribute being shifted, `t` counts
invocations, and `value` is the current shifted value (the scalar state,
meaningful once `t ≥ 1`). -/
structure ExponentialShift where
  attr : String
  rate : ℚ
  init : Option ℚ
  target : Option ℚ
  t : ℕ
  value : ℚ
deriving DecidableEq

/-- Direct constructor used once the rate has been validated. -/
def ExponentialShift.mk0 (attr : String) (rate : ℚ) (init target : Option ℚ) :
    ExponentialShift :=
  ⟨attr, rate, init, target, 0, 0⟩

/-- Modelled from the spec: construction of the extension; a negative decay rate
is rejected with a ValueError. -/
def ExponentialShift.make (attr : String) (rate : ℚ) (init target : Option ℚ) :
    Except PyError ExponentialShift :=
  if rate < 0 then
    .error (.valueError "ExponentialShift does not support negative rate")
  else .ok (ExponentialShift.mk0 attr rate init target)

/-- Modelled from the spec: one invocation of the extension, given the current
value `x` of the optimizer attribute.  The first invocation captures `x` (or
installs the explicit `init`) as the initial value; each later invocation
performs the geometric update toward the target.  Returns the updated extension
state and the updated attribute value. -/
def ExponentialShift.call (e : ExponentialShift) (x : ℚ) :
    ExponentialShift × ℚ :=
  if e.t = 0 then
    let v := e.init.getD x
    ({ e with init := some v, t := 1, value := v }, v)
  else
    let v := shiftStep e.rate e.target e.value
    ({ e with t := e.t + 1, value := v }, v)

/-- Modelled from the spec: serialization saves the scalar state as a single
number. -/
def ExponentialShift.saveState (e : ExponentialShift) : ℚ := e.value

/-- Modelled from the spec: deserialization restores the scalar state into a
freshly constructed extension. -/
def ExponentialShift.loadState (e : ExponentialShift) (v : ℚ) : ExponentialShift :=
  { e with value := v }

/-- Mirrors the loop body of `TestExponentialShift._run_trainer`: each update
step increments the iteration counter, the attribute value is observed, and the
extension is invoked whenever the interval trigger fires (iteration divisible by
the interval).  Returns the observations together with the final iteration
counter, extension state and attribute value. -/
def runSteps (interval : ℕ) :
    ℕ → ℕ → ExponentialShift → ℚ → List ℚ × ℕ × ExponentialShift × ℚ
  | 0, it, e, x => ([], it, e, x)
  | n + 1, it, e, x =>
    if (it + 1) % interval = 0 then
      (x :: (runSteps interval n (it + 1) (e.call x).1 (e.call x).2).1,
        (runSteps interval n (it + 1) (e.call x).1 (e.call x).2).2)
    else
      (x :: (runSteps interval n (it + 1) e x).1,
        (runSteps interval n (it + 1) e x).2)

/-- Mirrors `TestExponentialShift._run_trainer`: the extension is invoked once
before training, then the update loop runs for the given number of steps;
returns the observed attribute values, one per update step. -/
def runTrainer (e : ExponentialShift) (x : ℚ) (interval steps : ℕ) : List ℚ :=
  let p := e.call x
  (runSteps interval steps 0 p.1 p.2).1

/-- The clamping rule, written through the Boolean crossing test. -/
theorem clampToward_some (rate v tgt : ℚ) :
    clampToward rate v (some tgt) = if crossed rate v tgt then tgt else v := by
  unfold clampToward crossed
  by_cases h : 1 < rate <;> simp [h]

/-- Without a target, the trajectory is the pure geometric sequence. -/
theorem shiftSeq_none (rate v0 : ℚ) (k : ℕ) :
    shiftSeq rate none v0 k = v0 * rate ^ k := by
  induction k with
  | zero => simp [shiftSeq]
  | succ k ih =>
    show clampToward rate (shiftSeq rate none v0 k * rate) none = _
    rw [clampToward, ih, pow_succ, mul_assoc]

/-- Until the crossing test fires, the trajectory with a target is also the pure
geometric sequence. -/
theorem shiftSeq_pow (rate tgt v0 : ℚ) (k : ℕ)
    (h : ∀ j, j < k → crossed rate (v0 * rate ^ (j + 1)) tgt = false) :
    shiftSeq rate (some tgt) v0 k = v0 * rate ^ k := by
  induction k with
  | zero => simp [shiftSeq]
  | succ k ih =>
    have hk := h k (Nat.lt_succ_self k)
    have ih' := ih (fun j hj => h j (Nat.lt_succ_of_lt hj))
    have hv : shiftSeq rate (some tgt) v0 k * rate = v0 * rate ^ (k + 1) := by
      rw [ih', pow_succ, mul_assoc]
    show clampToward rate (shiftSeq rate (some tgt) v0 k * rate) (some tgt) = _
    rw [clampToward_some, hv, hk]
    simp

/-- Once the trajectory has reached the target it stays there (for a positive
rate). -/
theorem shiftStep_fixed (rate tgt : ℚ) (h : 0 < rate) :
    shiftStep rate (some tgt) tgt = tgt := by
  rw [shiftStep, clampToward_some]
  by_cases htgt : tgt = 0
  · subst htgt
    simp
  · by_cases hr : 1 < rate
    · have hcr : crossed rate (tgt * rate) tgt = true := by
        simp only [crossed, if_pos hr, decide_eq_true_eq]
        rw [div_mul_eq_div_div, div_self htgt, div_le_one h]
        exact le_of_lt hr
      rw [hcr]
      simp
    · have hcr : crossed rate (tgt * rate) tgt = true := by
        simp only [crossed, if_neg hr, decide_eq_true_eq]
        rw [div_mul_eq_div_div, div_self htgt, le_div_iff₀ h, one_mul]
        exact le_of_not_lt hr
      rw [hcr]
      simp

/-- Growing step on a positive product: the result never exceeds the target. -/
theorem shiftStep_le_tgt (rate tgt v : ℚ) (hr : 1 < rate) (hp : 0 < v * rate) :
    shiftStep rate (some tgt) v ≤ tgt := by
  rw [shiftStep, clampToward_some]
  by_cases h : crossed rate (v * rate) tgt = true
  · rw [if_pos h]
  · rw [if_neg h]
    have h' : ¬ tgt / (v * rate) ≤ 1 := fun hc =>
      h (by simp [crossed, if_pos hr, hc])
    exact le_of_lt (by simpa using (lt_div_iff₀ hp).mp (not_le.mp h'))

/-- Growing step on a negative product: the result never goes below the target. -/
theorem shiftStep_ge_tgt (rate tgt v : ℚ) (hr : 1 < rate) (hn : v * rate < 0) :
    tgt ≤ shiftStep rate (some tgt) v := by
  rw [shiftStep, clampToward_some]
  by_cases h : crossed rate (v * rate) tgt = true
  · rw [if_pos h]
  · rw [if_neg h]
    have h' : ¬ tgt / (v * rate) ≤ 1 := fun hc =>
      h (by simp [crossed, if_pos hr, hc])
    exact le_of_lt (by simpa using (lt_div_iff_of_neg hn).mp (not_le.mp h'))

/-- Decaying step on a positive product: the result never goes below the target. -/
theorem shiftStep_dec_ge_tgt (rate tgt v : ℚ) (hr : ¬ 1 < rate)
    (hp : 0 < v * rate) : tgt ≤ shiftStep rate (some tgt) v := by
  rw [shiftStep, clampToward_some]
  by_cases h : crossed rate (v * rate) tgt = true
  · rw [if_pos h]
  · rw [if_neg h]
    have h' : ¬ 1 ≤ tgt / (v * rate) := fun hc =>
      h (by simp [crossed, if_neg hr, hc])
    exact le_of_lt ((div_lt_one hp).mp (not_le.mp h'))

/-- Decaying step on a negative product: the result never exceeds the target. -/
theorem shiftStep_dec_le_tgt (rate tgt v : ℚ) (hr : ¬ 1 < rate)
    (hn : v * rate < 0) : shiftStep rate (some tgt) v ≤ tgt := by
  rw [shiftStep, clampToward_some]
  by_cases h : crossed rate (v * rate) tgt = true
  · rw [if_pos h]
  · rw [if_neg h]
    have h' : ¬ 1 ≤ tgt / (v * rate) := fun hc =>
      h (by simp [crossed, if_neg hr, hc])
    exact le_of_lt (by simpa using (div_lt_iff_of_neg hn).mp (not_le.mp h'))

/-- C1: the trajectory of the exponential-shift extension: after k triggers the
value is v0 * rate ^ k as long as the crossing test has not fired (and always,
when no target is given); as soon as the crossing test fires the value is
clamped to the target and stays there; for growing sequences (rate > 1) the
value approaches the target from below and is capped at it (mirrored for
negative values), for decaying sequences (rate < 1) it approaches from above
and is floored at it; and init = 2.0, rate = 0.5, target = 1.2 yields the value
sequence 2.0, 1.2, 1.2 over the first two triggers. -/
theorem claim_C1 :
    (∀ (rate v0 : ℚ) (k : ℕ), shiftSeq rate none v0 k = v0 * rate ^ k) ∧
    (∀ (rate tgt v0 : ℚ) (k : ℕ),
      (∀ j, j < k → crossed rate (v0 * rate ^ (j + 1)) tgt = false) →
      shiftSeq rate (some tgt) v0 k = v0 * rate ^ k) ∧
    (∀ (rate tgt v0 : ℚ) (k : ℕ),
      crossed rate (shiftSeq rate (some tgt) v0 k * rate) tgt = true →
      shiftSeq rate (some tgt) v0 (k + 1) = tgt) ∧
    (∀ (rate tgt v0 : ℚ) (k : ℕ), 0 < rate →
      shiftSeq rate (some tgt) v0 k = tgt →
      shiftSeq rate (some tgt) v0 (k + 1) = tgt) ∧
    (∀ (rate tgt v0 : ℚ) (k : ℕ), 1 < rate →
      0 < shiftSeq rate (some tgt) v0 k * rate →
      shiftSeq rate (some tgt) v0 (k + 1) ≤ tgt) ∧
    (∀ (rate tgt v0 : ℚ) (k : ℕ), 1 < rate →
      shiftSeq rate (some tgt) v0 k * rate < 0 →
      tgt ≤ shiftSeq rate (some tgt) v0 (k + 1)) ∧
    (∀ (rate tgt v0 : ℚ) (k : ℕ), rate < 1 →
      0 < shiftSeq rate (some tgt) v0 k * rate →
      tgt ≤ shiftSeq rate (some tgt) v0 (k + 1)) ∧
    (∀ (rate tgt v0 : ℚ) (k : ℕ), rate < 1 →
      shiftSeq rate (some tgt) v0 k * rate < 0 →
      shiftSeq rate (some tgt) v0 (k + 1) ≤ tgt) ∧
    (shiftSeq (1/2) (some (6/5)) 2 0 = 2 ∧
      shiftSeq (1/2) (some (6/5)) 2 1 = 6/5 ∧
      shiftSeq (1/2) (some (6/5)) 2 2 = 6/5) := by
  refine ⟨shiftSeq_none, shiftSeq_pow, ?_, ?_, ?_, ?_, ?_, ?_, ?_, ?_, ?_⟩
  · intro rate tgt v0 k h
    show clampToward rate (shiftSeq rate (some tgt) v0 k * rate) (some tgt) = _
    rw [clampToward_some, h]
    simp
  · intro rate tgt v0 k h0 hk
    show shiftStep rate (some tgt) (shiftSeq rate (some tgt) v0 k) = tgt
    rw [hk]
    exact shiftStep_fixed rate tgt h0
  · intro rate tgt v0 k hr hp
    exact shiftStep_le_tgt rate tgt _ hr hp
  · intro rate tgt v0 k hr hn
    exact shiftStep_ge_tgt rate tgt _ hr hn
  · intro rate tgt v0 k hr hp
    exact shiftStep_dec_ge_tgt rate tgt _ (lt_asymm hr) hp
  · intro rate tgt v0 k hr hn
    exact shiftStep_dec_le_tgt rate tgt _ (lt_asymm hr) hn
  · norm_num [shiftSeq]
  · norm_num [shiftSeq, shiftStep, clampToward]
  · norm_num [shiftSeq, shiftStep, clampToward]

theorem claim_C1_witness :
    0 < (1/2 : ℚ) ∧ shiftSeq (1/2) (some (6/5)) 2 1 = 6/5 ∧
      shiftSeq (1/2) (some (6/5)) 2 2 = 6/5 :=
  ⟨by norm_num, by norm_num [shiftSeq, shiftStep, clampToward],
    claim_C1.2.2.2.1 (1/2) (6/5) 2 1 (by norm_num)
      (by norm_num [shiftSeq, shiftStep, clampToward])⟩

/-- C5: constructing the exponential-shift extension with a negative rate always
fails with a ValueError, for every attribute name and every negative rate. -/
theorem claim_C5 (attr : String) (rate : ℚ) (init target : Option ℚ)
    (h : rate < 0) :
    ExponentialShift.make attr rate init target =
      .error (.valueError "ExponentialShift does not support negative rate") := by
  simp [ExponentialShift.make, h]

theorem claim_C5_witness :
    (-1 : ℚ) < 0 ∧
      ExponentialShift.make "x" (-1) none none =
        .error (.valueError "ExponentialShift does not support negative rate") :=
  ⟨by norm_num, claim_C5 "x" (-1) none none (by norm_num)⟩

/-- C10: with an explicit `init` argument, the first invocation sets the
optimizer attribute to `init` regardless of its prior value, and the whole
subsequent trajectory coincides with that of an extension started on an
optimizer whose attribute already equals `init`. -/
theorem claim_C10 (attr : String) (rate : ℚ) (target : Option ℚ)
    (v0 x0 : ℚ) (interval steps : ℕ) :
    ((ExponentialShift.mk0 attr rate (some v0) target).call x0).2 = v0 ∧
      runTrainer (ExponentialShift.mk0 attr rate (some v0) target) x0
          interval steps =
        runTrainer (ExponentialShift.mk0 attr rate none target) v0
          interval steps :=
  ⟨rfl, rfl⟩

/-- An invocation with a nonzero counter performs the geometric update. -/
theorem call_ne_zero (e : ExponentialShift) (x : ℚ) (h : e.t ≠ 0) :
    e.call x =
      ({ e with t := e.t + 1, value := shiftStep e.rate e.target e.value },
        shiftStep e.rate e.target e.value) := by
  rw [ExponentialShift.call, if_neg h]

/-- After any invocation the counter is nonzero. -/
theorem call_t_pos (e : ExponentialShift) (x : ℚ) : (e.call x).1.t ≠ 0 := by
  by_cases h : e.t = 0 <;> simp [ExponentialShift.call, h]

/-- After any invocation the stored scalar equals the returned attribute value. -/
theorem call_value (e : ExponentialShift) (x : ℚ) :
    (e.call x).1.value = (e.call x).2 := by
  by_cases h : e.t = 0 <;> simp [ExponentialShift.call, h]

/-- Invocations do not change the rate. -/
theorem call_rate (e : ExponentialShift) (x : ℚ) : (e.call x).1.rate = e.rate := by
  by_cases h : e.t = 0 <;> simp [ExponentialShift.call, h]

/-- Invocations do not change the target. -/
theorem call_target (e : ExponentialShift) (x : ℚ) :
    (e.call x).1.target = e.target := by
  by_cases h : e.t = 0 <;> simp [ExponentialShift.call, h]

/-- Along a run that starts after the before-training invocation, the counter
stays nonzero, rate and target are unchanged, and the stored scalar tracks the
attribute value. -/
theorem runSteps_pres (interval : ℕ) :
    ∀ (n it : ℕ) (e : ExponentialShift) (x : ℚ), e.t ≠ 0 → e.value = x →
      (runSteps interval n it e x).2.2.1.t ≠ 0 ∧
      (runSteps interval n it e x).2.2.1.rate = e.rate ∧
      (runSteps interval n it e x).2.2.1.target = e.target ∧
      (runSteps interval n it e x).2.2.1.value = (runSteps interval n it e x).2.2.2 := by
  intro n
  induction n with
  | zero => intro it e x ht hv; exact ⟨ht, rfl, rfl, hv⟩
  | succ n ih =>
    intro it e x ht hv
    by_cases hc : (it + 1) % interval = 0
    · rw [runSteps, if_pos hc]
      have h := ih (it + 1) (e.call x).1 (e.call x).2 (call_t_pos e x) (call_value e x)
      exact ⟨h.1, h.2.1.trans (call_rate e x), h.2.2.1.trans (call_target e x), h.2.2.2⟩
    · rw [runSteps, if_neg hc]
      exact ih (it + 1) e x ht hv

/-- Two extensions past their first invocation with the same rate, target and
stored scalar produce the same observations. -/
theorem runSteps_obs_congr (interval : ℕ) :
    ∀ (n it : ℕ) (e e' : ExponentialShift) (x : ℚ),
      e.t ≠ 0 → e'.t ≠ 0 → e.rate = e'.rate → e.target = e'.target →
      e.value = x → e'.value = x →
      (runSteps interval n it e x).1 = (runSteps interval n it e' x).1 := by
  intro n
  induction n with
  | zero => intros; rfl
  | succ n ih =>
    intro it e e' x ht ht' hr htg hv hv'
    by_cases hc : (it + 1) % interval = 0
    · rw [runSteps, runSteps, if_pos hc, if_pos hc]
      have h2 : (e.call x).2 = (e'.call x).2 := by
        rw [call_ne_zero e x ht, call_ne_zero e' x ht', hv, hv', hr, htg]
      have htail := ih (it + 1) (e.call x).1 (e'.call x).1 (e.call x).2
        (call_t_pos e x) (call_t_pos e' x)
        (((call_rate e x).trans hr).trans (call_rate e' x).symm)
        (((call_target e x).trans htg).trans (call_target e' x).symm)
        (call_value e x) ((call_value e' x).trans h2.symm)
      rw [htail, h2]
    · rw [runSteps, runSteps, if_neg hc, if_neg hc,
        ih (it + 1) e e' x ht ht' hr htg hv hv']

/-- Splitting a run into two segments. -/
theorem runSteps_append (interval : ℕ) :
    ∀ (n1 n2 it : ℕ) (e : ExponentialShift) (x : ℚ),
      runSteps interval (n1 + n2) it e x =
        ((runSteps interval n1 it e x).1 ++
          (runSteps interval n2 (runSteps interval n1 it e x).2.1
            (runSteps interval n1 it e x).2.2.1
            (runSteps interval n1 it e x).2.2.2).1,
         (runSteps interval n2 (runSteps interval n1 it e x).2.1
            (runSteps interval n1 it e x).2.2.1
            (runSteps interval n1 it e x).2.2.2).2) := by
  intro n1
  induction n1 with
  | zero => intro n2 it e x; rw [Nat.zero_add]; simp [runSteps]
  | succ n1 ih =>
    intro n2 it e x
    rw [show n1 + 1 + n2 = (n1 + n2) + 1 from by omega]
    by_cases hc : (it + 1) % interval = 0
    · rw [runSteps, if_pos hc, ih]
      rw [runSteps, if_pos hc]
      simp
    · rw [runSteps, if_neg hc, ih]
      rw [runSteps, if_neg hc]
      simp

/-- The trajectory advanced by one trigger is the trajectory of the stepped
start value. -/
theorem shiftSeq_succ_shift (rate : ℚ) (target : Option ℚ) (x : ℚ) (k : ℕ) :
    shiftSeq rate target x (k + 1) =
      shiftSeq rate target (shiftStep rate target x) k := by
  induction k with
  | zero => rfl
  | succ k ih =>
    show shiftStep rate target (shiftSeq rate target x (k + 1)) = _
    rw [ih]
    rfl

/-- Between two trigger events: `r` steps remain until the next trigger, all of
them observe the unchanged value `x`, and then the extension fires once. -/
theorem runSteps_block (interval : ℕ) :
    ∀ (r n it : ℕ) (e : ExponentialShift) (x : ℚ), 1 ≤ r → r ≤ interval →
      (it + r) % interval = 0 →
      runSteps interval (r + n) it e x =
        (List.replicate r x ++
          (runSteps interval n (it + r) (e.call x).1 (e.call x).2).1,
         (runSteps interval n (it + r) (e.call x).1 (e.call x).2).2) := by
  intro r
  induction r with
  | zero => intro n it e x h1; omega
  | succ r ih =>
    intro n it e x h1 h2 h3
    by_cases hr0 : r = 0
    · subst hr0
      rw [Nat.add_comm 1 n, runSteps, if_pos h3]
      simp
    · have hne : (it + 1) % interval ≠ 0 := by
        intro hc
        have d1 : interval ∣ it + (r + 1) := Nat.dvd_of_mod_eq_zero h3
        have d2 : interval ∣ it + 1 := Nat.dvd_of_mod_eq_zero hc
        have d3 : interval ∣ r := by
          have hsub : it + (r + 1) - (it + 1) = r := by omega
          have := Nat.dvd_sub' d1 d2
          rwa [hsub] at this
        have := Nat.le_of_dvd (by omega) d3
        omega
      rw [show r + 1 + n = (r + n) + 1 from by omega, runSteps, if_neg hne,
        ih n (it + 1) e x (by omega) (by omega)
          (by rw [show it + 1 + r = it + (r + 1) from by omega]; exact h3),
        show it + 1 + r = it + (r + 1) from by omega]
      simp [List.replicate_succ]

/-- A run of m whole intervals observes each trajectory value for exactly
`interval` consecutive iterations. -/
theorem runSteps_blocks (interval : ℕ) (hI : 0 < interval) :
    ∀ (m it : ℕ) (e : ExponentialShift) (x : ℚ), it % interval = 0 →
      e.t ≠ 0 → e.value = x →
      (runSteps interval (m * interval) it e x).1 =
        ((List.range m).map
          (fun k => List.replicate interval (shiftSeq e.rate e.target x k))).flatten := by
  intro m
  induction m with
  | zero => intro it e x _ _ _; rw [Nat.zero_mul]; rfl
  | succ m ih =>
    intro it e x hit ht hv
    rw [show (m + 1) * interval = interval + m * interval from by ring,
      runSteps_block interval interval (m * interval) it e x hI le_rfl
        (by rw [Nat.add_mod_right]; exact hit)]
    show List.replicate interval x ++ _ = _
    rw [ih (it + interval) (e.call x).1 (e.call x).2
      (by rw [Nat.add_mod_right]; exact hit) (call_t_pos e x) (call_value e x)]
    rw [call_rate, call_target]
    have hx2 : (e.call x).2 = shiftStep e.rate e.target x := by
      rw [call_ne_zero e x ht, hv]
    rw [hx2, List.range_succ_eq_map, List.map_cons, List.flatten_cons, List.map_map]
    congr 1
    apply congrArg
    symm
    apply List.map_congr_left
    intro k _
    show List.replicate interval (shiftSeq e.rate e.target x (k + 1)) = _
    rw [shiftSeq_succ_shift]

/-- C6: the extension's effect is applied only on the fixed iteration interval:
over m whole intervals, the observed attribute value is constant within each
interval and each trajectory value is observed for exactly `interval`
consecutive iterations. -/
theorem claim_C6 (attr : String) (rate : ℚ) (target : Option ℚ) (x0 : ℚ)
    (interval m : ℕ) (hI : 0 < interval) :
    runTrainer (ExponentialShift.mk0 attr rate none target) x0 interval
        (m * interval) =
      ((List.range m).map
        (fun k => List.replicate interval (shiftSeq rate target x0 k))).flatten := by
  show (runSteps interval (m * interval) 0
    ((ExponentialShift.mk0 attr rate none target).call x0).1
    ((ExponentialShift.mk0 attr rate none target).call x0).2).1 = _
  have hc : (ExponentialShift.mk0 attr rate none target).call x0 =
      (⟨attr, rate, some x0, target, 1, x0⟩, x0) := rfl
  rw [hc]
  exact runSteps_blocks interval hI m 0 ⟨attr, rate, some x0, target, 1, x0⟩ x0
    (Nat.zero_mod interval) (by simp) rfl

theorem claim_C6_witness :
    0 < 1 ∧
      runTrainer (ExponentialShift.mk0 "x" 2 none none) 3 1 (2 * 1) =
        ((List.range 2).map
          (fun k => List.replicate 1 (shiftSeq 2 none 3 k))).flatten :=
  ⟨Nat.one_pos, claim_C6 "x" 2 none 3 1 2 Nat.one_pos⟩

/-- Mirrors `TestExponentialShift.test_serialize`: run the first segment, save
the extension's scalar state, restore it into a freshly constructed extension
with the same parameters, invoke the new extension before training, and run the
second segment on the same trainer. -/
def splitRun (attr : String) (rate : ℚ) (target : Option ℚ) (x0 : ℚ)
    (interval n1 n2 : ℕ) : List ℚ :=
  let p := (ExponentialShift.mk0 attr rate none target).call x0
  let r1 := runSteps interval n1 0 p.1 p.2
  let e2 := (ExponentialShift.mk0 attr rate none target).loadState
    r1.2.2.1.saveState
  let q := e2.call r1.2.2.2
  let r2 := runSteps interval n2 r1.2.1 q.1 q.2
  r1.1 ++ r2.1

/-- C2: serializing the extension's state after a first segment of the run and
restoring it into a freshly constructed extension with the same parameters,
then continuing, produces exactly the same sequence of observed optimizer
attribute values as one uninterrupted run. -/
theorem claim_C2 (attr : String) (rate : ℚ) (target : Option ℚ) (x0 : ℚ)
    (interval n1 n2 : ℕ) :
    splitRun attr rate target x0 interval n1 n2 =
      runTrainer (ExponentialShift.mk0 attr rate none target) x0 interval
        (n1 + n2) := by
  unfold splitRun runTrainer
  show _ = (runSteps interval (n1 + n2) 0
    ((ExponentialShift.mk0 attr rate none target).call x0).1
    ((ExponentialShift.mk0 attr rate none target).call x0).2).1
  rw [runSteps_append]
  have hc : (ExponentialShift.mk0 attr rate none target).call x0 =
      (⟨attr, rate, some x0, target, 1, x0⟩, x0) := rfl
  rw [hc]
  have hpres := runSteps_pres interval n1 0 ⟨attr, rate, some x0, target, 1, x0⟩
    x0 (by simp) rfl
  apply congrArg
  apply runSteps_obs_congr
  · simp [ExponentialShift.loadState, ExponentialShift.call, ExponentialShift.mk0]
  · exact hpres.1
  · simp [ExponentialShift.loadState, ExponentialShift.call,
      ExponentialShift.mk0, hpres.2.1]
  · simp [ExponentialShift.loadState, ExponentialShift.call,
      ExponentialShift.mk0, hpres.2.2.1]
  · simp [ExponentialShift.loadState, ExponentialShift.call,
      ExponentialShift.mk0, hpres.2.2.2]
  · exact hpres.2.2.2

/-- Key lookup in an association list, mirroring Python dict subscription (the
caller handles the KeyError case through `Option`). -/
def lookupKey {α : Type} (k : String) : List (String × α) → Option α
  | [] => none
  | (k', v) :: rest => if k' = k then some v else lookupKey k rest

/-- One record returned by `install_library.py --action dump` for a library:
its CUDA version (`record['cuda']`), the library version (`record[library]`)
and the per-target-system asset filenames (`record['assets']`). -/
structure LibraryRecord where
  cuda : String
  version : String
  assets : List (String × List String)
deriving DecidableEq

/-- The per-library entry of the generated wheel metadata. -/
structure LibraryMeta where
  version : String
  filenames : List String
deriving DecidableEq

/-- The generated wheel metadata: the fixed `cuda` and `packaging` fields plus
one entry per requested library. -/
structure WheelMetadata where
  cuda : String
  packaging : String
  libraries : List (String × LibraryMeta)
deriving DecidableEq

/-- The `for record in ...: if record['cuda'] == cuda_version: ... break` scan
in `_generate_wheel_metadata`: the first record matching the CUDA version. -/
def findRecord (cuda : String) : List LibraryRecord → Option LibraryRecord
  | [] => none
  | r :: rs => if r.cuda = cuda then some r else findRecord cuda rs

/-- The body of the per-library loop of `_generate_wheel_metadata`: build the
metadata entry from the first record matching the CUDA version, raising
RuntimeError when no record matches, and KeyError when the matching record has
no assets entry for the target system. -/
def generateLib (cuda target : String) (records : List LibraryRecord) :
    Except PyError LibraryMeta :=
  match findRecord cuda records with
  | none => .error (.runtimeError "Specified library/CUDA combination not supported")
  | some r =>
    match lookupKey target r.assets with
    | none => .error (.keyError target)
    | some fns => .ok ⟨r.version, fns⟩

/-- The per-library loop of `_generate_wheel_metadata`, processing the
requested libraries in order; `recordsOf` models the records returned by the
`install_library.py` subprocess for each library. -/
def generateEntries (cuda target : String)
    (recordsOf : String → List LibraryRecord) :
    List String → Except PyError (List (String × LibraryMeta))
  | [] => .ok []
  | lib :: rest => do
    let m ← generateLib cuda target (recordsOf lib)
    let ms ← generateEntries cuda target recordsOf rest
    .ok ((lib, m) :: ms)

/-- The function `_generate_wheel_metadata`: the wheel-metadata dictionary
printed as JSON on standard output by `main` (modelled as the returned
structure). -/
def generate_wheel_metadata (cuda target : String) (libraries : List String)
    (recordsOf : String → List LibraryRecord) : Except PyError WheelMetadata :=
  (generateEntries cuda target recordsOf libraries).map
    (fun es => ⟨cuda, "pip", es⟩)

/-- The literal `choices=['cudnn', 'cutensor', 'nccl']` of the `--library`
option. -/
def libraryChoices : List String := ["cudnn", "cutensor", "nccl"]

/-- The raw command-line options handed to the argument parser. -/
structure CliArgs where
  cuda : Option String
  target : Option String
  library : List String
deriving DecidableEq

/-- The validated options produced by the argument parser. -/
structure ParsedArgs where
  cuda : String
  target : Option String
  library : List String
deriving DecidableEq

/-- The argparse configuration of `main`: `--cuda` is required, `--target` is
optional, `--library` is repeatable, required, and restricted to
`libraryChoices`; a violation ends argument parsing with an error. -/
def parseArgs (a : CliArgs) : Except PyError ParsedArgs :=
  match a.cuda with
  | none => .error (.argumentError "the following arguments are required: --cuda")
  | some c =>
    if a.library = [] then
      .error (.argumentError "the following arguments are required: --library")
    else if a.library.all (fun l => l ∈ libraryChoices) then
      .ok ⟨c, a.target, a.library⟩
    else
      .error (.argumentError "argument --library: invalid choice")

/-- Python `or` as used in `params.target or platform.system()`: fall back to
the host platform name when `--target` is omitted (or empty). -/
def effectiveTarget (target : Option String) (hostSystem : String) : String :=
  match target with
  | none => hostSystem
  | some s => if s = "" then hostSystem else s

/-- The tool's `main`: parse the arguments, then generate and print the wheel
metadata; errors propagate unhandled. -/
def wheelMetadataMain (a : CliArgs) (hostSystem : String)
    (recordsOf : String → List LibraryRecord) : Except PyError WheelMetadata :=
  (parseArgs a).bind (fun p =>
    generate_wheel_metadata p.cuda (effectiveTarget p.target hostSystem)
      p.library recordsOf)

/-- When a requested library has no record matching the CUDA version, and every
requested library earlier in the list than it has either no matching record
itself or a matching record with an assets entry for the target system, the
per-library loop ends with the RuntimeError (possibly raised at an even earlier
library with no matching record). -/
theorem generateEntries_runtime (cuda target : String)
    (recordsOf : String → List LibraryRecord) (lib : String)
    (post : List String) (hlib : findRecord cuda (recordsOf lib) = none) :
    ∀ pre : List String,
      (∀ l ∈ pre, ∀ r, findRecord cuda (recordsOf l) = some r →
        lookupKey target r.assets ≠ none) →
      generateEntries cuda target recordsOf (pre ++ lib :: post) =
        .error (.runtimeError "Specified library/CUDA combination not supported") := by
  intro pre
  induction pre with
  | nil =>
    intro _
    simp [generateEntries, generateLib, hlib, Bind.bind, Except.bind]
  | cons l pre ih =>
    intro h
    cases hfr : findRecord cuda (recordsOf l) with
    | none => simp [generateEntries, generateLib, hfr, Bind.bind, Except.bind]
    | some r =>
      cases hlk : lookupKey target r.assets with
      | none => exact absurd hlk (h l (by simp) r hfr)
      | some fns =>
        have ih' := ih (fun l' hl' => h l' (List.mem_cons_of_mem _ hl'))
        simp [generateEntries, generateLib, hfr, hlk, ih', Bind.bind, Except.bind]

/-- C3 (amended): the metadata generator ends with the RuntimeError whenever
some requested library has no record matching the CUDA version, provided every
earlier requested library's matching record has an assets entry for the target
system (otherwise a KeyError from that earlier assets lookup preempts it);
libraries after the failing one are unconstrained.  The error propagates
unhandled through `main` (no retry). -/
theorem claim_C3 :
    (∀ (cuda target : String) (pre : List String) (lib : String)
      (post : List String) (recordsOf : String → List LibraryRecord),
      findRecord cuda (recordsOf lib) = none →
      (∀ l ∈ pre, ∀ r, findRecord cuda (recordsOf l) = some r →
        lookupKey target r.assets ≠ none) →
      generate_wheel_metadata cuda target (pre ++ lib :: post) recordsOf =
        .error (.runtimeError "Specified library/CUDA combination not supported")) ∧
    (∀ (a : CliArgs) (host : String) (recordsOf : String → List LibraryRecord)
      (p : ParsedArgs) (err : PyError), parseArgs a = .ok p →
      generate_wheel_metadata p.cuda (effectiveTarget p.target host) p.library
        recordsOf = .error err →
      wheelMetadataMain a host recordsOf = .error err) := by
  constructor
  · intro cuda target pre lib post recordsOf hlib hpre
    rw [generate_wheel_metadata,
      generateEntries_runtime cuda target recordsOf lib post hlib pre hpre]
    rfl
  · intro a host recordsOf p err hp hgen
    rw [wheelMetadataMain, hp]
    exact hgen

/-- Record set for the C3 witness: the first library resolves (matching record
with a target assets entry), the second has no matching record, the third has a
matching record without the target assets entry (allowed after the failure). -/
def recsC3 : String → List LibraryRecord := fun lib =>
  if lib = "cudnn" then [⟨"11.0", "8.0.5", [("Linux", ["cudnn-linux.tar.xz"])]⟩]
  else if lib = "cutensor" then [⟨"11.0", "1.2.0", [("Windows", ["ct-win.zip"])]⟩]
  else []

theorem claim_C3_witness :
    findRecord "11.0" (recsC3 "nccl") = none ∧
      generate_wheel_metadata "11.0" "Linux"
          (["cudnn"] ++ "nccl" :: ["cutensor"]) recsC3 =
        .error (.runtimeError "Specified library/CUDA combination not supported") :=
  ⟨rfl, claim_C3.1 "11.0" "Linux" ["cudnn"] "nccl" ["cutensor"] recsC3 rfl
    (by
      intro l hl r hr
      rw [List.mem_singleton] at hl
      subst hl
      simp [recsC3, findRecord] at hr
      subst hr
      simp [lookupKey])⟩

/-- Record set exhibiting the KeyError preemption: the first library has a
record matching the CUDA version but no assets entry for the target system,
while the second library has no matching record at all. -/
def recsCex : String → List LibraryRecord := fun lib =>
  if lib = "cudnn" then [⟨"11.0", "8.0.5", [("Windows", ["cudnn-win.zip"])]⟩]
  else []

theorem claim_C3_counterexample :
    "nccl" ∈ ["cudnn", "nccl"] ∧
      findRecord "11.0" (recsCex "nccl") = none ∧
      generate_wheel_metadata "11.0" "Linux" ["cudnn", "nccl"] recsCex =
        .error (.keyError "Linux") ∧
      PyError.keyError "Linux" ≠
        .runtimeError "Specified library/CUDA combination not supported" := by
  refine ⟨by simp, by simp [recsCex, findRecord], ?_, by simp⟩
  simp [generate_wheel_metadata, generateEntries, generateLib, findRecord,
    lookupKey, recsCex, Bind.bind, Except.bind, Except.map]

/-- When every requested library has a record matching the CUDA version with an
assets entry for the target system, the per-library loop succeeds with one entry
per library, in order, drawn from the matching records. -/
theorem generateEntries_ok (cuda target : String)
    (recordsOf : String → List LibraryRecord) :
    ∀ (libraries : List String),
      (∀ lib ∈ libraries, ∃ r fns, findRecord cuda (recordsOf lib) = some r ∧
        lookupKey target r.assets = some fns) →
      ∃ es, generateEntries cuda target recordsOf libraries = .ok es ∧
        List.Forall₂ (fun lib (p : String × LibraryMeta) => p.1 = lib ∧
          ∃ r, findRecord cuda (recordsOf lib) = some r ∧
            p.2.version = r.version ∧
            lookupKey target r.assets = some p.2.filenames) libraries es := by
  intro libs
  induction libs with
  | nil => intro _; exact ⟨[], rfl, List.Forall₂.nil⟩
  | cons lib rest ih =>
    intro h
    rcases h lib (by simp) with ⟨r, fns, hfr, hlk⟩
    rcases ih (fun l hl => h l (List.mem_cons_of_mem _ hl)) with ⟨es, hes, hfa⟩
    refine ⟨(lib, ⟨r.version, fns⟩) :: es, ?_, ?_⟩
    · simp [generateEntries, generateLib, hfr, hlk, hes, Bind.bind, Except.bind]
    · exact List.Forall₂.cons ⟨rfl, r, hfr, rfl, hlk⟩ hfa

/-- C4: when every requested library has a matching record with assets for the
target system, the generator outputs the metadata object with the `cuda` field,
`packaging = "pip"`, and per-library entries whose `version` comes from the
matching record and whose `filenames` come from that record's assets entry for
the target system. -/
theorem claim_C4 (cuda target : String) (libraries : List String)
    (recordsOf : String → List LibraryRecord)
    (h : ∀ lib ∈ libraries, ∃ r fns, findRecord cuda (recordsOf lib) = some r ∧
      lookupKey target r.assets = some fns) :
    ∃ md, generate_wheel_metadata cuda target libraries recordsOf = .ok md ∧
      md.cuda = cuda ∧ md.packaging = "pip" ∧
      List.Forall₂ (fun lib (p : String × LibraryMeta) => p.1 = lib ∧
        ∃ r, findRecord cuda (recordsOf lib) = some r ∧
          p.2.version = r.version ∧
          lookupKey target r.assets = some p.2.filenames) libraries md.libraries := by
  rcases generateEntries_ok cuda target recordsOf libraries h with ⟨es, hes, hfa⟩
  exact ⟨⟨cuda, "pip", es⟩, by rw [generate_wheel_metadata, hes]; rfl, rfl, rfl, hfa⟩

/-- Concrete record set for the C4 witness. -/
def wRecs : String → List LibraryRecord := fun _ =>
  [⟨"12.0", "2.16.2", [("Linux", ["nccl-linux.tar.xz"])]⟩]

theorem claim_C4_witness :
    ∃ md, generate_wheel_metadata "12.0" "Linux" ["nccl"] wRecs = .ok md ∧
      md.cuda = "12.0" ∧ md.packaging = "pip" ∧
      List.Forall₂ (fun lib (p : String × LibraryMeta) => p.1 = lib ∧
        ∃ r, findRecord "12.0" (wRecs lib) = some r ∧
          p.2.version = r.version ∧
          lookupKey "Linux" r.assets = some p.2.filenames) ["nccl"] md.libraries :=
  claim_C4 "12.0" "Linux" ["nccl"] wRecs
    (by
      intro lib _
      exact ⟨⟨"12.0", "2.16.2", [("Linux", ["nccl-linux.tar.xz"])]⟩,
        ["nccl-linux.tar.xz"], rfl, rfl⟩)

/-- C8: the CLI requires `--cuda`, requires at least one `--library`, restricts
`--library` values to cudnn/cutensor/nccl (rejecting anything else), accepts any
combination satisfying those rules unchanged, and when `--target` is omitted the
generator runs against the host platform name. -/
theorem claim_C8 :
    (∀ a : CliArgs, a.cuda = none → parseArgs a =
      .error (.argumentError "the following arguments are required: --cuda")) ∧
    (∀ (c : String) (t : Option String), parseArgs ⟨some c, t, []⟩ =
      .error (.argumentError "the following arguments are required: --library")) ∧
    (∀ (c : String) (t : Option String) (libs : List String), libs ≠ [] →
      (∀ l ∈ libs, l ∈ libraryChoices) →
      parseArgs ⟨some c, t, libs⟩ = .ok ⟨c, t, libs⟩) ∧
    (∀ (a : CliArgs) (p : ParsedArgs), parseArgs a = .ok p →
      ∀ l ∈ p.library, l ∈ libraryChoices) ∧
    (∀ (a : CliArgs) (l : String), l ∈ a.library → l ∉ libraryChoices →
      ∀ p, parseArgs a ≠ .ok p) ∧
    (∀ (c host : String) (libs : List String)
      (recordsOf : String → List LibraryRecord), libs ≠ [] →
      (∀ l ∈ libs, l ∈ libraryChoices) →
      wheelMetadataMain ⟨some c, none, libs⟩ host recordsOf =
        generate_wheel_metadata c host libs recordsOf) := by
  have hok : ∀ (c : String) (t : Option String) (libs : List String), libs ≠ [] →
      (∀ l ∈ libs, l ∈ libraryChoices) →
      parseArgs ⟨some c, t, libs⟩ = .ok ⟨c, t, libs⟩ := by
    intro c t libs hne hall
    rw [parseArgs]
    simp only [if_neg hne]
    rw [if_pos (by simpa [List.all_eq_true, decide_eq_true_eq] using hall)]
  refine ⟨?_, ?_, hok, ?_, ?_, ?_⟩
  · intro a h
    rw [parseArgs, h]
  · intro c t
    rw [parseArgs]
    simp
  · intro a p hp l hl
    obtain ⟨ac, ta, al⟩ := a
    cases ac with
    | none => rw [parseArgs] at hp; exact absurd hp (by simp)
    | some c =>
      rw [parseArgs] at hp
      dsimp only at hp
      by_cases hne : al = []
      · rw [if_pos hne] at hp
        exact absurd hp (by simp)
      · rw [if_neg hne] at hp
        by_cases hall : al.all (fun l => decide (l ∈ libraryChoices))
        · rw [if_pos hall] at hp
          injection hp with h
          subst h
          have := List.all_eq_true.mp hall l hl
          simpa using this
        · rw [if_neg hall] at hp
          exact absurd hp (by simp)
  · intro a l hl hnotin p hp
    obtain ⟨ac, ta, al⟩ := a
    cases ac with
    | none => rw [parseArgs] at hp; exact absurd hp (by simp)
    | some c =>
      rw [parseArgs] at hp
      dsimp only at hp
      have hne : al ≠ [] := by
        intro h
        rw [h] at hl
        exact absurd hl (by simp)
      rw [if_neg hne] at hp
      have hall : ¬ al.all (fun l => decide (l ∈ libraryChoices)) := by
        intro h
        exact hnotin (by simpa using List.all_eq_true.mp h l hl)
      rw [if_neg hall] at hp
      exact absurd hp (by simp)
  · intro c host libs recordsOf hne hall
    rw [wheelMetadataMain, hok c none libs hne hall]
    rfl

theorem claim_C8_witness :
    (["cudnn"] : List String) ≠ [] ∧
      parseArgs ⟨some "11.2", none, ["cudnn"]⟩ = .ok ⟨"11.2", none, ["cudnn"]⟩ :=
  ⟨by simp, claim_C8.2.2.1 "11.2" none ["cudnn"] (by simp)
    (by intro l hl; simp at hl; simp [hl, libraryChoices])⟩

/-- The command-line arguments of the k-means example script. -/
structure KMeansArgs where
  gpuid : ℤ
  n_clusters : ℤ
  max_iter : ℤ
  elem : Bool
  output : Option String
deriving DecidableEq

/-- The `__main__` guard of `examples/kmeans/kmeans.py`: the elementwise-kernel
flag together with a cluster count other than 2 raises a ValueError before
`run` is invoked; otherwise `run` is invoked with the parsed arguments
(modelled as returning them). -/
def kmeansMain (a : KMeansArgs) : Except PyError KMeansArgs :=
  if a.n_clusters ≠ 2 ∧ a.elem = true then
    .error (.valueError "Can use Elementwise Kernel only when n-clusters is 2")
  else .ok a

/-- C9: with the elementwise-kernel flag set and a cluster count other than 2,
the k-means entry point fails with the ValueError before running any
clustering; consequently whenever `run` is reached with the flag set the
cluster count is exactly 2. -/
theorem claim_C9 :
    (∀ a : KMeansArgs, a.elem = true → a.n_clusters ≠ 2 →
      kmeansMain a =
        .error (.valueError "Can use Elementwise Kernel only when n-clusters is 2")) ∧
    (∀ a b : KMeansArgs, kmeansMain a = .ok b → a.elem = true →
      a.n_clusters = 2) := by
  constructor
  · intro a he hn
    rw [kmeansMain, if_pos ⟨hn, he⟩]
  · intro a b hab he
    by_cases hn : a.n_clusters = 2
    · exact hn
    · rw [kmeansMain, if_pos ⟨hn, he⟩] at hab
      exact absurd hab (by simp)

theorem claim_C9_witness :
    (3 : ℤ) ≠ 2 ∧
      kmeansMain ⟨0, 3, 10, true, none⟩ =
        .error (.valueError "Can use Elementwise Kernel only when n-clusters is 2") :=
  ⟨by decide, claim_C9.1 ⟨0, 3, 10, true, none⟩ rfl (by decide)⟩

/-- The default path's squared deviation of a data row from a center:
`(X - centers)` summed over the feature axis after squaring (the inner part of
`np.linalg.norm(..., axis=2)`). -/
def sqDiffSum (x c : List ℚ) : ℚ :=
  (List.zipWith (fun a b => (a - b) * (a - b)) x c).sum

/-- The `calc_distances` elementwise kernel's accumulated squared distance:
`diff = centers[...] - data` squared and accumulated with atomicAdd; the
nondeterministically ordered atomic additions are modelled as the exact sum. -/
def kernelSqDist (x c : List ℚ) : ℚ :=
  (List.zipWith (fun a b => (b - a) * (b - a)) x c).sum

/-- The default path's label for a data row given the two centers: `np.argmin`
over the Euclidean norms, taking the first index attaining the minimum.  The
norm takes a real square root, so this definition lives in `ℝ`. -/
noncomputable def defaultLabel (x c0 c1 : List ℚ) : ℕ :=
  if Real.sqrt ((sqDiffSum x c0 : ℚ) : ℝ) ≤ Real.sqrt ((sqDiffSum x c1 : ℚ) : ℝ)
  then 0 else 1

/-- The kernel path's label for a data row: `np.argmin` over the accumulated
squared distances. -/
def kernelLabel (x c0 c1 : List ℚ) : ℕ :=
  if kernelSqDist x c0 ≤ kernelSqDist x c1 then 0 else 1

/-- The rows of X assigned to cluster i (`X[pred == i]`). -/
def assignedRows (X : List (List ℚ)) (pred : List ℕ) (i : ℕ) : List (List ℚ) :=
  ((X.zip pred).filter (fun p => p.2 == i)).map Prod.fst

/-- Sum of coordinate m over a list of rows. -/
def coordSum (rows : List (List ℚ)) (m : ℕ) : ℚ :=
  (rows.map (fun r => r.getD m 0)).sum

/-- The default path's new center: `X[pred == i].mean(axis=0)`, coordinate m. -/
def defaultCenter (X : List (List ℚ)) (pred : List ℕ) (i m : ℕ) : ℚ :=
  coordSum (assignedRows X pred i) m / ((assignedRows X pred i).length : ℚ)

/-- The `calc_center` kernel's accumulator `centers[label][m] += data`,
coordinate m of cluster i, with the atomic additions modelled as the exact
sum. -/
def kCenterAcc (X : List (List ℚ)) (pred : List ℕ) (i m : ℕ) : ℚ :=
  ((X.zip pred).map (fun p => if p.2 == i then p.1.getD m 0 else 0)).sum

/-- The `calc_center` kernel's accumulator `group[label] += 1`: one atomic
increment per element of each row, so each assigned row contributes its
length. -/
def kGroupAcc (X : List (List ℚ)) (pred : List ℕ) (i : ℕ) : ℚ :=
  ((X.zip pred).map (fun p => if p.2 == i then (p.1.length : ℚ) else 0)).sum

/-- The kernel path's new center: after `group /= data_dim` and
`centers /= group[:, None]`, coordinate m of cluster i. -/
def kernelCenter (X : List (List ℚ)) (pred : List ℕ) (d i m : ℕ) : ℚ :=
  kCenterAcc X pred i m / (kGroupAcc X pred i / (d : ℚ))

/-- A sum of squared differences is nonnegative. -/
theorem sqDiffSum_nonneg (x : List ℚ) : ∀ c, 0 ≤ sqDiffSum x c := by
  induction x with
  | nil => intro c; simp [sqDiffSum]
  | cons a xs ih =>
    intro c
    cases c with
    | nil => simp [sqDiffSum]
    | cons b cs =>
      simp only [sqDiffSum, List.zipWith_cons_cons, List.sum_cons]
      exact add_nonneg (mul_self_nonneg _) (ih cs)

/-- The kernel accumulates the same squared distance as the default path
(the differences are taken in the opposite order, which squares away). -/
theorem kernelSqDist_eq (x : List ℚ) : ∀ c, kernelSqDist x c = sqDiffSum x c := by
  induction x with
  | nil => intro c; rfl
  | cons a xs ih =>
    intro c
    cases c with
    | nil => rfl
    | cons b cs =>
      simp only [kernelSqDist, sqDiffSum, List.zipWith_cons_cons, List.sum_cons]
      rw [show (b - a) * (b - a) = (a - b) * (a - b) from by ring]
      exact congrArg _ (ih cs)

/-- The labels agree: the square root is monotone, so the argmin over Euclidean
norms equals the argmin over accumulated squared distances (ties resolved to
the first index on both paths). -/
theorem defaultLabel_eq_kernelLabel (x c0 c1 : List ℚ) :
    defaultLabel x c0 c1 = kernelLabel x c0 c1 := by
  rw [defaultLabel, kernelLabel, kernelSqDist_eq, kernelSqDist_eq]
  refine if_congr ?_ rfl rfl
  have h1 : (0 : ℝ) ≤ ((sqDiffSum x c1 : ℚ) : ℝ) := by
    exact_mod_cast sqDiffSum_nonneg x c1
  rw [Real.sqrt_le_sqrt_iff h1]
  exact_mod_cast Iff.rfl

/-- The group accumulator of cluster i is the number of assigned rows times the
feature dimension. -/
theorem kGroupAcc_eq (d i : ℕ) :
    ∀ L : List (List ℚ × ℕ), (∀ p ∈ L, p.1.length = d) →
      ((L.map (fun p => if p.2 == i then ((p.1.length : ℕ) : ℚ) else 0)).sum =
        (((L.filter (fun p => p.2 == i)).length : ℚ) * d)) := by
  intro L
  induction L with
  | nil => intro _; simp
  | cons p L ih =>
    intro h
    have hp : p.1.length = d := h p (by simp)
    have ih' := ih (fun q hq => h q (List.mem_cons_of_mem _ hq))
    by_cases hpi : (p.2 == i) = true
    · rw [List.map_cons, List.sum_cons, if_pos hpi,
        @List.filter_cons_of_pos _ (fun q => q.2 == i) p L hpi,
        List.length_cons, ih', hp]
      push_cast
      ring
    · rw [List.map_cons, List.sum_cons, if_neg hpi,
        @List.filter_cons_of_neg _ (fun q => q.2 == i) p L hpi, ih', zero_add]

/-- The center accumulator of cluster i, coordinate m, is the coordinate sum of
the assigned rows. -/
theorem kCenterAcc_eq (i m : ℕ) :
    ∀ L : List (List ℚ × ℕ),
      ((L.map (fun p => if p.2 == i then p.1.getD m 0 else 0)).sum =
        ((((L.filter (fun p => p.2 == i)).map Prod.fst).map
          (fun r => r.getD m 0)).sum)) := by
  intro L
  induction L with
  | nil => simp
  | cons p L ih =>
    by_cases hpi : (p.2 == i) = true
    · rw [List.map_cons, List.sum_cons, if_pos hpi,
        @List.filter_cons_of_pos _ (fun q => q.2 == i) p L hpi,
        List.map_cons, List.map_cons, List.sum_cons, ih]
    · rw [List.map_cons, List.sum_cons, if_neg hpi,
        @List.filter_cons_of_neg _ (fun q => q.2 == i) p L hpi, ih, zero_add]

/-- The centers agree: the kernel's per-cluster atomic sum divided by the
recovered per-cluster count equals the mean of the assigned rows. -/
theorem kernelCenter_eq (X : List (List ℚ)) (pred : List ℕ) (d i m : ℕ)
    (hd : 0 < d) (hrows : ∀ r ∈ X, r.length = d) :
    kernelCenter X pred d i m = defaultCenter X pred i m := by
  have hmem : ∀ p ∈ X.zip pred, p.1.length = d := fun p hp =>
    hrows p.1 (List.of_mem_zip hp).1
  have hdq : (d : ℚ) ≠ 0 := Nat.cast_ne_zero.mpr (Nat.pos_iff_ne_zero.mp hd)
  rw [kernelCenter, defaultCenter, kCenterAcc, kGroupAcc, coordSum, assignedRows,
    kGroupAcc_eq d i (X.zip pred) hmem, kCenterAcc_eq i m (X.zip pred),
    mul_div_assoc, div_self hdq, mul_one, List.length_map]

/-- C7: with two clusters, each Lloyd iteration computes the same label for
every data row under the elementwise-kernel path as under the default path,
and both paths compute the same new centers: the kernel's per-cluster atomic
sums divided by the recovered per-cluster counts equal the means of the
assigned rows (for inputs whose rows all have the feature dimension). -/
theorem claim_C7 :
    (∀ x c0 c1 : List ℚ, defaultLabel x c0 c1 = kernelLabel x c0 c1) ∧
    (∀ (X : List (List ℚ)) (pred : List ℕ) (d i m : ℕ), 0 < d →
      (∀ r ∈ X, r.length = d) →
      kernelCenter X pred d i m = defaultCenter X pred i m) :=
  ⟨defaultLabel_eq_kernelLabel,
    fun X pred d i m hd hrows => kernelCenter_eq X pred d i m hd hrows⟩

theorem claim_C7_witness :
    0 < 2 ∧
      kernelCenter [[1, 2], [3, 4], [5, 6]] [0, 1, 0] 2 0 0 =
        defaultCenter [[1, 2], [3, 4], [5, 6]] [0, 1, 0] 0 0 :=
  ⟨Nat.zero_lt_two, claim_C7.2 [[1, 2], [3, 4], [5, 6]] [0, 1, 0] 2 0 0
    Nat.zero_lt_two (by decide)⟩
